import Mathlib

/-!
# Verification of the scribe HDFS LZO streaming writer (`src/HdfsFile.cpp`)

Shallow embedding of the LZO block-compression framing and buffering engine
of `HdfsFile`: byte strings are `List Nat` (each entry one byte), the member
state of an `HdfsFile` object is an explicit `HdfsState` record, and the HDFS
sink is modelled as an append-only byte list that acknowledges every write in
full.  External collaborators are parameters: the LZO block compressor is a
function `List Nat → Option (List Nat)` (`none` models a non-`LZO_E_OK`
return code), `lzo_version()` and `basename(...)` are plain arguments.

The `lzo_adler32` checksum is the standard zlib/LZO Adler-32, implemented
per byte.  C++ `std::string(p)` construction from `inputData.data()` stops at
the first NUL byte; `cstr` models that truncation faithfully.
-/

namespace HdfsFile

/-- LZOP default block size, 256 KiB (`lzo_block_size` in the source). -/
def lzo_block_size : Nat := 256 * 1024

/-- LZO1X method identifier written into the stream header. -/
def lzo_method : Nat := 1

/-- `F_ADLER32_D | F_ADLER32_C`: the flag word written into the header. -/
def lzo_flags : Nat := 3

/-- Magic file header for lzopack-compressed files (`lzop_magic`). -/
def lzop_magic : List Nat := [0x89, 0x4c, 0x5a, 0x4f, 0x00, 0x0d, 0x0a, 0x1a, 0x0a]

/-- One step of the Adler-32 rolling checksum: fold one byte into the
`(s1, s2)` state, both components reduced mod 65521. -/
def adlerStep (p : Nat × Nat) (b : Nat) : Nat × Nat :=
  let s1 := (p.1 + b) % 65521
  (s1, (p.2 + s1) % 65521)

/-- The LZO library's `lzo_adler32(seed, bytes, len)`: standard zlib Adler-32.
The seed packs `s1` in the low 16 bits and `s2` in the high 16 bits. -/
def lzo_adler32 (seed : Nat) (bytes : List Nat) : Nat :=
  let p := bytes.foldl adlerStep (seed % 65536, seed / 65536 % 65536)
  p.2 * 65536 + p.1

/-- Big-endian 16-bit encoding, exactly as `LZOStringAppendInt16` lays the
bytes out (`b[0] = v >> 8`, `b[1] = v >> 0`, each cast to `unsigned char`). -/
def be16 (v : Nat) : List Nat := [(v >>> 8) % 256, v % 256]

/-- Big-endian 32-bit encoding, exactly as `LZOStringAppendInt32` lays the
bytes out (most significant byte first, each cast to `unsigned char`). -/
def be32 (v : Nat) : List Nat :=
  [(v >>> 24) % 256, (v >>> 16) % 256, (v >>> 8) % 256, v % 256]

/-- The C++ `std::string(const char*)` constructor applied to
`inputData.data()`: keeps the bytes up to (excluding) the first NUL. -/
def cstr (s : List Nat) : List Nat := s.takeWhile (fun b => b ≠ 0)

/-- `HdfsFile::LZOStringAppendChar`: append one byte to the buffer and fold
it into the running `lzo_checksum`.  Returns (new checksum, new buffer). -/
def LZOStringAppendChar (chk : Nat) (str : List Nat) (c : Nat) : Nat × List Nat :=
  (lzo_adler32 chk [c % 256], str ++ [c % 256])

/-- `HdfsFile::LZOStringAppendInt16`: append a big-endian 16-bit value and
fold its bytes into the running `lzo_checksum`. -/
def LZOStringAppendInt16 (chk : Nat) (str : List Nat) (v : Nat) : Nat × List Nat :=
  (lzo_adler32 chk (be16 v), str ++ be16 v)

/-- `HdfsFile::LZOStringAppendInt32`: append a big-endian 32-bit value and
fold its bytes into the running `lzo_checksum`. -/
def LZOStringAppendInt32 (chk : Nat) (str : List Nat) (v : Nat) : Nat × List Nat :=
  (lzo_adler32 chk (be32 v), str ++ be32 v)

/-- The LZOP stream header built in `HdfsFile::openWrite` (lines 139-171):
magic, version words, method, level, flags, mode, mtime, gmtdiff, base-name
length and bytes, then the running checksum (seeded with 1) of everything
after the magic.  `libVer` models `lzo_version()`, `baseFile` models
`basename(base_filename.c_str())` (NUL-free).  Returns the final
`lzo_checksum` member value and the header bytes. -/
def lzoHeader (level libVer : Nat) (baseFile : List Nat) : Nat × List Nat :=
  let hdr := lzop_magic
  let chk := 1
  let p := LZOStringAppendInt16 chk hdr (0x1010 % 65536)
  let p := LZOStringAppendInt16 p.1 p.2 (libVer % 65536)
  let p := LZOStringAppendInt16 p.1 p.2 0x0940
  let p := LZOStringAppendChar p.1 p.2 lzo_method
  let p := LZOStringAppendChar p.1 p.2 level
  let p := LZOStringAppendInt32 p.1 p.2 lzo_flags
  let p := LZOStringAppendInt32 p.1 p.2 436
  let p := LZOStringAppendInt32 p.1 p.2 0
  let p := LZOStringAppendInt32 p.1 p.2 0
  let p := LZOStringAppendChar p.1 p.2 baseFile.length
  let chk := lzo_adler32 p.1 baseFile
  let hdr := p.2 ++ baseFile
  LZOStringAppendInt32 chk hdr chk

/-- The worst-case LZO expansion bound `len + len / 16 + 64 + 3` used both
to size the output work buffer and as the sanity check on `out_len`. -/
def lzoBound (n : Nat) : Nat := n + n / 16 + 64 + 3

/-- Result of one `HdfsFile::LZOCompress` call: the returned string, the
`*success` flag, and the values of the mutated members `LZObacklogBuffer`
and `lzo_checksum`. -/
structure LZORes where
  ret : List Nat
  success : Bool
  backlog : List Nat
  chk : Nat
deriving DecidableEq

/-- Outcome of the per-block compression loop: either the assembled
`compressedData` (with the final `lzo_checksum`), or the early `return data`
taken when a block failed to compress. -/
inductive FramesOut where
  | ok (chk : Nat) (out : List Nat) : FramesOut
  | failed (chk : Nat) : FramesOut
deriving DecidableEq

/-- One iteration of the block loop in `HdfsFile::LZOCompress`
(lines 305-351), for a single block: run the compressor, apply the
worst-case-expansion sanity check, and emit either frame variant (a)
(compressed) or variant (b) (raw).  `none` models the early
`*success = false; return data;` path. -/
def lzoFrameBlock (compress : List Nat → Option (List Nat)) (chk : Nat)
    (block_data : List Nat) : Option (Nat × List Nat) :=
  match compress block_data with
  | none => none
  | some out =>
    if lzoBound block_data.length < out.length then none
    else
      let p := LZOStringAppendInt32 chk [] block_data.length
      if out.length < block_data.length then
        let out_len32 := out.length % 2 ^ 32
        let p := LZOStringAppendInt32 p.1 p.2 out_len32
        let p := LZOStringAppendInt32 p.1 p.2 (lzo_adler32 1 block_data)
        let p := LZOStringAppendInt32 p.1 p.2 (lzo_adler32 1 (out.take out_len32))
        some (p.1, p.2 ++ out)
      else
        let p := LZOStringAppendInt32 p.1 p.2 block_data.length
        some (p.1, p.2 ++ block_data)

/-- The block selected at loop index `i` in `HdfsFile::LZOCompress`:
`data.substr(i * lzo_block_size, data_len)` where `data_len` is the block
size (or the whole input when `blocks == 0`), plus the remainder when
`i == blocks` (which, for `blocks > 0`, the loop condition `i < blocks`
makes unreachable). -/
def lzoBlockData (data : List Nat) (blocks total i : Nat) : List Nat :=
  let data_len := if blocks = 0 then total else lzo_block_size
  let data_len := if i = blocks then data_len + (data.length - total) else data_len
  (data.drop (i * lzo_block_size)).take data_len

/-- The blocks the loop in `HdfsFile::LZOCompress` iterates over: index `0`
alone when `blocks == 0` (the `|| blocks == 0` disjunct with the final
`break`), otherwise indices `0, …, blocks - 1`. -/
def lzoBlocksList (data : List Nat) (blocks total : Nat) : List (List Nat) :=
  (if blocks = 0 then [0] else List.range blocks).map (lzoBlockData data blocks total)

/-- The block loop of `HdfsFile::LZOCompress`: frame each block in turn,
accumulating `compressedData`, aborting on the first failed block. -/
def lzoFramesGo (compress : List Nat → Option (List Nat)) :
    List (List Nat) → Nat → List Nat → FramesOut
  | [], chk, acc => FramesOut.ok chk acc
  | b :: bs, chk, acc =>
    match lzoFrameBlock compress chk b with
    | none => FramesOut.failed chk
    | some p => lzoFramesGo compress bs p.1 (acc ++ p.2)

/-- `HdfsFile::LZOCompress(inputData, force, success)` (lines 239-360).
`backlog` and `chk` are the members `LZObacklogBuffer` and `lzo_checksum`
on entry.  The input is re-read through `string(inputData.data())` (`cstr`),
prepended with the backlog; undersized unforced input is queued and the
original `inputData` returned; otherwise the data is split into blocks and
framed.  The `calloc` work buffers are modelled as always available. -/
def LZOCompress (compress : List Nat → Option (List Nat))
    (backlog : List Nat) (chk : Nat) (inputData : List Nat) (force : Bool) : LZORes :=
  let data := if backlog.length > 0 then backlog ++ cstr inputData else cstr inputData
  if data.length < lzo_block_size ∧ force = false then
    { ret := inputData, success := true, backlog := data, chk := chk }
  else
    let blocks := data.length / lzo_block_size
    let total_data_length := if blocks = 0 then data.length else blocks * lzo_block_size
    match lzoFramesGo compress (lzoBlocksList data blocks total_data_length) chk [] with
    | FramesOut.failed c => { ret := data, success := false, backlog := [], chk := c }
    | FramesOut.ok c out => { ret := out, success := true, backlog := [], chk := c }

/-- Member state of one `HdfsFile` object, plus the bytes accepted so far by
the HDFS sink (`sink`, the concatenation of all acknowledged `hdfsWrite`
payloads on this file) and the mode the handle was last opened with
(`openedAppend`, recording the `O_APPEND` flag passed to `hdfsOpenFile`). -/
structure HdfsState where
  fileSysOk : Bool
  hfileOpen : Bool
  fileExists : Bool
  openedAppend : Bool
  LZOCompressionLevel : Nat
  LZObacklogBuffer : List Nat
  lzo_checksum : Nat
  sink : List Nat
deriving DecidableEq

/-- `HdfsFile::openWrite` (lines 104-186).  `openS` models the success of
`hdfsOpenFile`; `baseFile` and `libVer` model `basename(...)` and
`lzo_version()`.  A name that already exists is opened with
`O_WRONLY|O_APPEND` and compression is forced off; a fresh name opened with
compression enabled gets the LZOP header written and the backlog cleared. -/
def openWrite (openS : Bool) (baseFile : List Nat) (libVer : Nat)
    (s : HdfsState) : Bool × HdfsState :=
  if s.fileSysOk = false then (false, s)
  else if s.hfileOpen = true then (false, s)
  else
    let appendMode := s.fileExists
    let s := if appendMode ∧ s.LZOCompressionLevel ≠ 0 then
        { s with LZOCompressionLevel := 0 } else s
    if openS = false then (false, s)
    else
      let s := { s with hfileOpen := true, openedAppend := appendMode }
      if appendMode then (true, s)
      else if s.LZOCompressionLevel ≠ 0 then
        let hc := lzoHeader s.LZOCompressionLevel libVer baseFile
        (true, { s with lzo_checksum := hc.1, sink := s.sink ++ hc.2,
                        LZObacklogBuffer := [] })
      else (true, s)

/-- `HdfsFile::write` (lines 362-400).  Opens the file first when no handle
is held; with compression enabled the data goes through `LZOCompress`
(`force = false`) and either the framed buffer, the raw input (compression
failure fallback), or nothing (queued) is sent to the sink; with compression
disabled the input is written through unmodified.  `hdfsWrite` is modelled
as acknowledging every byte. -/
def write (compress : List Nat → Option (List Nat)) (openS : Bool)
    (baseFile : List Nat) (libVer : Nat) (data : List Nat)
    (s : HdfsState) : Bool × HdfsState :=
  let step := if s.hfileOpen = false then openWrite openS baseFile libVer s else (true, s)
  if step.1 = false then (false, step.2)
  else
    let s := step.2
    if s.LZOCompressionLevel ≠ 0 then
      let r := LZOCompress compress s.LZObacklogBuffer s.lzo_checksum data false
      let s := { s with LZObacklogBuffer := r.backlog, lzo_checksum := r.chk }
      if r.ret ≠ data ∧ r.success = true then
        (true, { s with sink := s.sink ++ r.ret })
      else if r.success = false then
        (true, { s with sink := s.sink ++ data })
      else
        (r.success, s)
    else
      (true, { s with sink := s.sink ++ data })

/-- `HdfsFile::close` (lines 199-225).  With compression enabled the backlog
is force-flushed through `LZOCompress("", true, &good)`; the flushed buffer
is written only when `good`, the 4-byte zero EOF marker is written
unconditionally, and the handle is released. -/
def close (compress : List Nat → Option (List Nat)) (s : HdfsState) : HdfsState :=
  if s.fileSysOk = false then s
  else if s.hfileOpen = false then { s with hfileOpen := false }
  else
    let s1 :=
      if s.LZOCompressionLevel ≠ 0 then
        let r := LZOCompress compress s.LZObacklogBuffer s.lzo_checksum [] true
        let s2 := { s with LZObacklogBuffer := r.backlog, lzo_checksum := r.chk }
        let s3 := if r.success = true then { s2 with sink := s2.sink ++ r.ret } else s2
        { s3 with sink := s3.sink ++ [0, 0, 0, 0] }
      else s
    { s1 with hfileOpen := false }

/-- Read one big-endian 32-bit integer off the front of a byte stream. -/
def readBE32 : List Nat → Option (Nat × List Nat)
  | b3 :: b2 :: b1 :: b0 :: rest => some (((b3 * 256 + b2) * 256 + b1) * 256 + b0, rest)
  | _ => none

/-- Modelled from the spec: the conceptual reader of the frame stream
(§3 of the spec; no decoder exists in the repository).  Splits a stream of
data frames into their uncompressed payloads: a frame starts with the
uncompressed length; a zero length is the terminator and must end the
stream; when the second length field equals the first the frame stores the
raw block, otherwise the second field is the compressed length, two
checksum words follow, and `decomp` recovers the payload.  `fuel` bounds
recursion; `none` means the stream is ill-formed or fuel ran out. -/
def framePayloads (decomp : List Nat → List Nat) :
    Nat → List Nat → Option (List (List Nat))
  | 0, _ => none
  | fuel + 1, stream =>
    match readBE32 stream with
    | none => none
    | some (ulen, rest) =>
      if ulen = 0 then
        if rest = [] then some [] else none
      else
        match readBE32 rest with
        | none => none
        | some (second, rest2) =>
          if second = ulen then
            if ulen ≤ rest2.length then
              match framePayloads decomp fuel (rest2.drop ulen) with
              | none => none
              | some ps => some (rest2.take ulen :: ps)
            else none
          else
            if second + 8 ≤ rest2.length then
              match framePayloads decomp fuel ((rest2.drop 8).drop second) with
              | none => none
              | some ps => some (decomp ((rest2.drop 8).take second) :: ps)
            else none

/-- The two data-frame variants as the spec describes them (§3): variant (a)
when compression shrank the block — uncompressed length, compressed length,
uncompressed checksum, compressed checksum, compressed bytes — and
variant (b) otherwise — the uncompressed length written twice, then the raw
block bytes. -/
def frameVariantSpec (b out : List Nat) : List Nat :=
  if out.length < b.length then
    be32 b.length ++ be32 out.length ++ be32 (lzo_adler32 1 b)
      ++ be32 (lzo_adler32 1 out) ++ out
  else
    be32 b.length ++ be32 b.length ++ b

/-- A compressor that returns its input unchanged: `out_len` equals the
block length, so every block is stored as a raw (variant (b)) frame. -/
def idCompress : List Nat → Option (List Nat) := fun b => some b

/-- A compressor whose underlying algorithm always reports a non-success
code. -/
def failCompress : List Nat → Option (List Nat) := fun _ => none

/-- The span of header bytes covered by the header checksum: everything
`openWrite` appends between the magic and the final checksum field. -/
def lzoHeaderBody (level libVer : Nat) (baseFile : List Nat) : List Nat :=
  be16 (0x1010 % 65536) ++ be16 (libVer % 65536) ++ be16 0x0940
    ++ [lzo_method % 256] ++ [level % 256] ++ be32 lzo_flags ++ be32 436
    ++ be32 0 ++ be32 0 ++ [baseFile.length % 256] ++ baseFile

lemma adlerFold_lt (bytes : List Nat) (p : Nat × Nat)
    (h1 : p.1 < 65536) (h2 : p.2 < 65536) :
    (bytes.foldl adlerStep p).1 < 65536 ∧ (bytes.foldl adlerStep p).2 < 65536 := by
  induction bytes generalizing p with
  | nil => exact ⟨h1, h2⟩
  | cons b bs ih =>
    simp only [List.foldl_cons]
    exact ih _ (by unfold adlerStep; dsimp; omega) (by unfold adlerStep; dsimp; omega)

/-- Adler-32 accumulation composes over concatenation: updating a running
checksum with more bytes is the same as checksumming the concatenation. -/
lemma lzo_adler32_append (s : Nat) (a b : List Nat) :
    lzo_adler32 (lzo_adler32 s a) b = lzo_adler32 s (a ++ b) := by
  unfold lzo_adler32
  simp only [List.foldl_append]
  set p := a.foldl adlerStep (s % 65536, s / 65536 % 65536) with hp
  have hb : p.1 < 65536 ∧ p.2 < 65536 := by
    rw [hp]; exact adlerFold_lt a _ (by omega) (by omega)
  have h1 : (p.2 * 65536 + p.1) % 65536 = p.1 := by omega
  have h2 : (p.2 * 65536 + p.1) / 65536 % 65536 = p.2 := by omega
  rw [h1, h2]

lemma exists_of_map_snd {o : Option (Nat × List Nat)} {v : List Nat}
    (h : o.map Prod.snd = some v) : ∃ c, o = some (c, v) := by
  cases o with
  | none => simp at h
  | some p =>
    simp at h
    exact ⟨p.1, by rw [← h]⟩

/-- The frame bytes emitted for a block that compression shrank
(variant (a)), exactly as `LZOCompress` lays them out. -/
lemma lzoFrameBlock_small (compress : List Nat → Option (List Nat)) (chk : Nat)
    (b out : List Nat) (hc : compress b = some out)
    (hb : out.length ≤ lzoBound b.length) (hlt : out.length < b.length) :
    (lzoFrameBlock compress chk b).map Prod.snd =
      some (be32 b.length ++ be32 (out.length % 2 ^ 32) ++ be32 (lzo_adler32 1 b)
        ++ be32 (lzo_adler32 1 (out.take (out.length % 2 ^ 32))) ++ out) := by
  simp [lzoFrameBlock, hc, Nat.not_lt.mpr hb, hlt, LZOStringAppendInt32,
    List.append_assoc]

/-- The frame bytes emitted for a block that compression did not shrink
(variant (b)): the length written twice, then the raw block. -/
lemma lzoFrameBlock_raw (compress : List Nat → Option (List Nat)) (chk : Nat)
    (b out : List Nat) (hc : compress b = some out)
    (hb : out.length ≤ lzoBound b.length) (hge : ¬ out.length < b.length) :
    (lzoFrameBlock compress chk b).map Prod.snd =
      some (be32 b.length ++ be32 b.length ++ b) := by
  simp [lzoFrameBlock, hc, Nat.not_lt.mpr hb, hge, LZOStringAppendInt32,
    List.append_assoc]

/-- The frame bytes do not depend on the incoming `lzo_checksum` member:
the running header checksum is never folded into frame contents. -/
lemma lzoFrameBlock_snd_chk (compress : List Nat → Option (List Nat))
    (chk chk2 : Nat) (b : List Nat) :
    (lzoFrameBlock compress chk b).map Prod.snd
      = (lzoFrameBlock compress chk2 b).map Prod.snd := by
  unfold lzoFrameBlock
  cases compress b with
  | none => rfl
  | some out =>
    by_cases h : lzoBound b.length < out.length <;>
      by_cases h2 : out.length < b.length <;>
        simp [h, h2, LZOStringAppendInt32]

/-- The header is the magic, the checksummed body, then the big-endian
checksum of that body accumulated from the identity seed 1. -/
lemma lzoHeader_structure (level libVer : Nat) (baseFile : List Nat) :
    (lzoHeader level libVer baseFile).2 =
      lzop_magic ++ lzoHeaderBody level libVer baseFile
        ++ be32 (lzo_adler32 1 (lzoHeaderBody level libVer baseFile)) := by
  simp [lzoHeader, lzoHeaderBody, LZOStringAppendInt16, LZOStringAppendChar,
    LZOStringAppendInt32, lzo_adler32_append, List.append_assoc]

lemma lzoData_eq (bl d : List Nat) :
    (if bl.length > 0 then bl ++ cstr d else cstr d) = bl ++ cstr d := by
  cases bl <;> simp

/-- The queue-and-return path of `LZOCompress`: undersized unforced input is
retained (backlog plus NUL-truncated input) and the call reports success
with the original input echoed back. -/
lemma LZOCompress_decline (compress : List Nat → Option (List Nat))
    (bl : List Nat) (chk : Nat) (d : List Nat)
    (h : (bl ++ cstr d).length < lzo_block_size) :
    LZOCompress compress bl chk d false =
      { ret := d, success := true, backlog := bl ++ cstr d, chk := chk } := by
  have h2 : bl.length + (cstr d).length < lzo_block_size := by simpa using h
  simp [LZOCompress, lzoData_eq]
  intro hle
  exact absurd hle (by omega)

lemma lzoFramesGo_failCompress (bl : List (List Nat)) (chk : Nat) (acc : List Nat)
    (h : bl ≠ []) : lzoFramesGo failCompress bl chk acc = FramesOut.failed chk := by
  cases bl with
  | nil => simp at h
  | cons b bs => rfl

lemma lzoBlocksList_ne_nil (data : List Nat) (blocks total : Nat) :
    lzoBlocksList data blocks total ≠ [] := by
  unfold lzoBlocksList
  by_cases h : blocks = 0 <;> simp [h]

/-- With a compressor that always reports failure, any `LZOCompress` call
that reaches the block loop fails, returns the merged data, and clears the
backlog. -/
lemma LZOCompress_failCompress (bl : List Nat) (chk : Nat) (d : List Nat) (force : Bool)
    (h : ¬ ((bl ++ cstr d).length < lzo_block_size ∧ force = false)) :
    LZOCompress failCompress bl chk d force =
      { ret := bl ++ cstr d, success := false, backlog := [], chk := chk } := by
  simp only [LZOCompress, lzoData_eq]
  rw [if_neg h, lzoFramesGo_failCompress _ _ _ (lzoBlocksList_ne_nil _ _ _)]

/-- The raw-fallback path of `write`: when `LZOCompress` reports failure,
`write` sends only the current call's bytes to the sink and returns the
result of that raw write (always `true` for the all-acknowledging sink). -/
lemma write_fallback_raw (compress : List Nat → Option (List Nat)) (openS : Bool)
    (baseFile : List Nat) (libVer : Nat) (d : List Nat) (s : HdfsState)
    (hopen : s.hfileOpen = true) (hlvl : s.LZOCompressionLevel ≠ 0)
    (hfail : (LZOCompress compress s.LZObacklogBuffer s.lzo_checksum d false).success
      = false) :
    write compress openS baseFile libVer d s =
      (true, { s with
        LZObacklogBuffer :=
          (LZOCompress compress s.LZObacklogBuffer s.lzo_checksum d false).backlog,
        lzo_checksum :=
          (LZOCompress compress s.LZObacklogBuffer s.lzo_checksum d false).chk,
        sink := s.sink ++ d }) := by
  simp [write, hopen, hlvl, hfail]

/-- A freshly constructed writer for a not-yet-existing name, compression
level 1, nothing buffered or written. -/
def freshState : HdfsState :=
  { fileSysOk := true, hfileOpen := false, fileExists := false, openedAppend := false,
    LZOCompressionLevel := 1, LZObacklogBuffer := [], lzo_checksum := 0, sink := [] }

/-- An open compression-enabled writer with an empty backlog. -/
def openState : HdfsState :=
  { fileSysOk := true, hfileOpen := true, fileExists := true, openedAppend := false,
    LZOCompressionLevel := 1, LZObacklogBuffer := [], lzo_checksum := 1, sink := [] }

/-- An open compression-enabled writer whose backlog is one byte short of a
full 256 KiB block. -/
def bigBacklogState : HdfsState :=
  { openState with LZObacklogBuffer := List.replicate 262143 97 }

/-- C4: for every block processed by the framer with a successful, in-bound
compressor result, the emitted frame is variant (a) — uncompressed length,
compressed length, uncompressed checksum, compressed checksum, compressed
bytes — exactly when the compressed length is strictly smaller than the raw
block length, and variant (b) — the uncompressed length written twice
followed by the raw block bytes — otherwise. -/
theorem C4_frame_variants (compress : List Nat → Option (List Nat)) (chk : Nat)
    (b out : List Nat) (hc : compress b = some out)
    (hb : out.length ≤ lzoBound b.length) (h32 : out.length < 2 ^ 32) :
    ∃ c, lzoFrameBlock compress chk b = some (c, frameVariantSpec b out) := by
  have h32b : out.length < 4294967296 := by norm_num at h32; exact h32
  have hmod : out.length % 4294967296 = out.length := Nat.mod_eq_of_lt h32b
  by_cases hlt : out.length < b.length
  · refine exists_of_map_snd ?_
    rw [lzoFrameBlock_small compress chk b out hc hb hlt]
    simp [frameVariantSpec, hlt, hmod]
  · refine exists_of_map_snd ?_
    rw [lzoFrameBlock_raw compress chk b out hc hb hlt]
    simp [frameVariantSpec, hlt]

/-- C4 witness: a 5-byte block whose compressor output is the single byte 7
is framed as variant (a). -/
theorem C4_witness :
    (lzoFrameBlock (fun _ => some [7]) 0 [1, 2, 3, 4, 5]).map Prod.snd
      = some (frameVariantSpec [1, 2, 3, 4, 5] [7]) := by
  obtain ⟨c, hc⟩ :=
    C4_frame_variants (fun _ => some [7]) 0 [1, 2, 3, 4, 5] [7] rfl (by decide) (by decide)
  simp [hc]

/-- C7: the stream-header checksum is seeded with the identity value 1 at
stream-open time — the header's trailing checksum field is the Adler-32,
from seed 1, of the header body — and each block's uncompressed and
compressed checksums are the Adler-32, from seed 1, of the raw and the
compressed block bytes; the frame bytes do not depend on the running
checksum state, so per-block checksums are never chained across blocks. -/
theorem C7_checksum_seeding (level libVer : Nat) (baseFile : List Nat)
    (compress : List Nat → Option (List Nat)) (chk chk2 : Nat) (b out : List Nat)
    (hc : compress b = some out) (hb : out.length ≤ lzoBound b.length) :
    (lzoHeader level libVer baseFile).2
        = lzop_magic ++ lzoHeaderBody level libVer baseFile
            ++ be32 (lzo_adler32 1 (lzoHeaderBody level libVer baseFile)) ∧
    (lzoFrameBlock compress chk b).map Prod.snd
        = (lzoFrameBlock compress chk2 b).map Prod.snd ∧
    (out.length < b.length →
      ∃ c, lzoFrameBlock compress chk b = some (c,
        be32 b.length ++ be32 (out.length % 2 ^ 32) ++ be32 (lzo_adler32 1 b)
          ++ be32 (lzo_adler32 1 (out.take (out.length % 2 ^ 32))) ++ out)) := by
  refine ⟨lzoHeader_structure level libVer baseFile,
    lzoFrameBlock_snd_chk compress chk chk2 b, fun hlt => ?_⟩
  exact exists_of_map_snd (lzoFrameBlock_small compress chk b out hc hb hlt)

/-- C7 witness: concrete header and a concrete 5-byte block compressed to
one byte, with two different incoming checksum states. -/
theorem C7_witness :
    (lzoHeader 1 0x2060 [102]).2
        = lzop_magic ++ lzoHeaderBody 1 0x2060 [102]
            ++ be32 (lzo_adler32 1 (lzoHeaderBody 1 0x2060 [102])) ∧
    (lzoFrameBlock (fun _ => some [7]) 5 [1, 2, 3, 4, 5]).map Prod.snd
        = (lzoFrameBlock (fun _ => some [7]) 99 [1, 2, 3, 4, 5]).map Prod.snd ∧
    (lzoFrameBlock (fun _ => some [7]) 5 [1, 2, 3, 4, 5]).map Prod.snd
        = some (be32 [1, 2, 3, 4, 5].length ++ be32 ([7].length % 2 ^ 32)
            ++ be32 (lzo_adler32 1 [1, 2, 3, 4, 5])
            ++ be32 (lzo_adler32 1 ([7].take ([7].length % 2 ^ 32))) ++ [7]) := by
  obtain ⟨hA, hB, hC⟩ :=
    C7_checksum_seeding 1 0x2060 [102] (fun _ => some [7]) 5 99 [1, 2, 3, 4, 5] [7]
      rfl (by decide)
  obtain ⟨c, hc⟩ := hC (by decide)
  exact ⟨hA, hB, by simp [hc]⟩

/-- C5 counterexample: with an empty backlog and the 3-byte write
`[97, 0, 98]` (total far below the block size), the code retains only
`[97]` as the new backlog — `LZOCompress` re-reads its input as a C string
and truncates at the NUL — not the full concatenation the claim states. -/
theorem C5_counterexample :
    (openState.LZObacklogBuffer ++ [97, 0, 98]).length < lzo_block_size ∧
    write idCompress true [] 0 [97, 0, 98] openState
      = (true, { openState with LZObacklogBuffer := [97] }) ∧
    ([97] : List Nat) ≠ openState.LZObacklogBuffer ++ [97, 0, 98] := by
  decide

/-- C5 (amended): for every `write(data)` call on an open compression-enabled
writer where the backlog plus the NUL-truncated data is shorter than the
block size, the writer retains that truncated concatenation as the new
backlog, reports success, and leaves the sink untouched. -/
theorem C5_buffer_retention (compress : List Nat → Option (List Nat)) (openS : Bool)
    (baseFile : List Nat) (libVer : Nat) (d : List Nat) (s : HdfsState)
    (hopen : s.hfileOpen = true) (hlvl : s.LZOCompressionLevel ≠ 0)
    (hlen : (s.LZObacklogBuffer ++ cstr d).length < lzo_block_size) :
    write compress openS baseFile libVer d s =
      (true, { s with LZObacklogBuffer := s.LZObacklogBuffer ++ cstr d }) := by
  simp [write, hopen, hlvl,
    LZOCompress_decline compress s.LZObacklogBuffer s.lzo_checksum d hlen]

/-- C5 witness: a one-byte write on an open writer with an empty backlog is
queued. -/
theorem C5_witness :
    write idCompress true [] 0 [3] openState
      = (true, { openState with
          LZObacklogBuffer := openState.LZObacklogBuffer ++ cstr [3] }) :=
  C5_buffer_retention idCompress true [] 0 [3] openState rfl (by decide) (by decide)

/-- C3 counterexample: with 262143 backlogged bytes, a 1-byte write that
completes a block, and a compressor that reports failure, `write` returns
`true` (the failure is not surfaced) and sends only the current call's one
byte to the sink — the 262143 backlogged bytes are lost. -/
lemma fullBlockCond :
    ¬ ((List.replicate 262143 (97 : Nat) ++ cstr [98]).length < lzo_block_size ∧
        (false = false)) := by
  intro hcon
  rw [show cstr [98] = ([98] : List Nat) from rfl, List.length_append,
    List.length_replicate] at hcon
  exact absurd hcon.1 (by norm_num [lzo_block_size])

lemma bigBacklogFlushFails :
    (LZOCompress failCompress bigBacklogState.LZObacklogBuffer
      bigBacklogState.lzo_checksum [98] false).success = false := by
  rw [show bigBacklogState.LZObacklogBuffer = List.replicate 262143 97 from rfl,
    show bigBacklogState.lzo_checksum = 1 from rfl,
    LZOCompress_failCompress (List.replicate 262143 97) 1 [98] false fullBlockCond]

theorem C3_counterexample :
    (write failCompress true [] 0 [98] bigBacklogState).1 = true ∧
    (write failCompress true [] 0 [98] bigBacklogState).2.sink = [98] ∧
    ([98] : List Nat) ≠ List.replicate 262143 97 ++ [98] := by
  have hw := write_fallback_raw failCompress true [] 0 [98] bigBacklogState rfl
    (by decide) bigBacklogFlushFails
  refine ⟨by rw [hw], by rw [hw]; rfl, ?_⟩
  · intro h
    have hl := congrArg List.length h
    rw [List.length_append, List.length_replicate] at hl
    omega

/-- C3 (amended): whenever the block compressor fails (non-success code or
oversized result) during a compression-enabled `write`, `LZOCompress`
reports failure internally, and `write` falls back to writing only the
current call's bytes raw to the sink and returns `true` once that raw write
is acknowledged; previously backlogged bytes merged into the failed flush
are not rewritten. -/
theorem C3_failure_fallback (compress : List Nat → Option (List Nat)) (openS : Bool)
    (baseFile : List Nat) (libVer : Nat) (d : List Nat) (s : HdfsState)
    (hopen : s.hfileOpen = true) (hlvl : s.LZOCompressionLevel ≠ 0)
    (hfail : (LZOCompress compress s.LZObacklogBuffer s.lzo_checksum d false).success
      = false) :
    write compress openS baseFile libVer d s =
      (true, { s with
        LZObacklogBuffer :=
          (LZOCompress compress s.LZObacklogBuffer s.lzo_checksum d false).backlog,
        lzo_checksum :=
          (LZOCompress compress s.LZObacklogBuffer s.lzo_checksum d false).chk,
        sink := s.sink ++ d }) :=
  write_fallback_raw compress openS baseFile libVer d s hopen hlvl hfail

/-- C3 witness: the amended behaviour at the counterexample's concrete
input. -/
theorem C3_witness :
    write failCompress true [] 0 [98] bigBacklogState =
      (true, { bigBacklogState with
        LZObacklogBuffer := (LZOCompress failCompress bigBacklogState.LZObacklogBuffer
          bigBacklogState.lzo_checksum [98] false).backlog,
        lzo_checksum := (LZOCompress failCompress bigBacklogState.LZObacklogBuffer
          bigBacklogState.lzo_checksum [98] false).chk,
        sink := bigBacklogState.sink ++ [98] }) :=
  C3_failure_fallback failCompress true [] 0 [98] bigBacklogState rfl (by decide)
    bigBacklogFlushFails

/-- Opening an existing name: append flags, compression forced off, and no
bytes (in particular no header) sent to the sink. -/
lemma openWrite_exists (baseFile : List Nat) (libVer : Nat) (s : HdfsState)
    (hfs : s.fileSysOk = true) (hno : s.hfileOpen = false) (hex : s.fileExists = true) :
    openWrite true baseFile libVer s =
      (true, { s with hfileOpen := true, openedAppend := true,
                      LZOCompressionLevel := 0 }) := by
  obtain ⟨fs, ho, fe, oa, lvl, bb, ck, sk⟩ := s
  dsimp only at hfs hno hex
  subst hfs; subst hno; subst hex
  by_cases hlvl : lvl = 0 <;> simp [openWrite, hlvl]

/-- The sink grows across `openWrite` exactly when a header is written:
the name did not exist and compression is enabled. -/
lemma openWrite_sink_iff (baseFile : List Nat) (libVer : Nat) (s : HdfsState)
    (hfs : s.fileSysOk = true) (hno : s.hfileOpen = false) :
    ((openWrite true baseFile libVer s).2.sink ≠ s.sink ↔
      s.fileExists = false ∧ s.LZOCompressionLevel ≠ 0) := by
  have hhdr : (lzoHeader s.LZOCompressionLevel libVer baseFile).2 ≠ [] := by
    rw [lzoHeader_structure]; simp [lzop_magic]
  obtain ⟨fs, ho, fe, oa, lvl, bb, ck, sk⟩ := s
  dsimp only at hfs hno hhdr
  subst hfs; subst hno
  cases fe <;> by_cases hlvl : lvl = 0 <;>
    simp [openWrite, hlvl, List.append_right_eq_self, hhdr]

/-- C6: opening a name that already exists puts the writer in append mode,
forces the compression level to 0 for the session (even if previously
nonzero), and writes no stream header; the sink gains header bytes exactly
when the name did not previously exist and compression is enabled. -/
theorem C6_append_mode (baseFile : List Nat) (libVer : Nat) (s : HdfsState)
    (hfs : s.fileSysOk = true) (hno : s.hfileOpen = false) :
    (s.fileExists = true →
      openWrite true baseFile libVer s =
        (true, { s with hfileOpen := true, openedAppend := true,
                        LZOCompressionLevel := 0 })) ∧
    ((openWrite true baseFile libVer s).2.sink ≠ s.sink ↔
      s.fileExists = false ∧ s.LZOCompressionLevel ≠ 0) :=
  ⟨fun hex => openWrite_exists baseFile libVer s hfs hno hex,
   openWrite_sink_iff baseFile libVer s hfs hno⟩

/-- A writer whose name already exists, with compression level 5 set. -/
def appendState : HdfsState :=
  { freshState with fileExists := true, LZOCompressionLevel := 5 }

/-- C6 witness: the append transition at a concrete state with nonzero
compression level. -/
theorem C6_witness :
    openWrite true [] 0 appendState =
      (true, { appendState with hfileOpen := true, openedAppend := true,
                                LZOCompressionLevel := 0 }) ∧
    ((openWrite true [] 0 appendState).2.sink ≠ appendState.sink ↔
      appendState.fileExists = false ∧ appendState.LZOCompressionLevel ≠ 0) := by
  obtain ⟨h1, h2⟩ := C6_append_mode [] 0 appendState rfl rfl
  exact ⟨h1 rfl, h2⟩

lemma close_fileSysOk (compress : List Nat → Option (List Nat)) (s : HdfsState) :
    (close compress s).fileSysOk = s.fileSysOk := by
  unfold close
  by_cases h1 : s.fileSysOk = false <;> by_cases h2 : s.hfileOpen = false <;>
    by_cases h3 : s.LZOCompressionLevel ≠ 0 <;> simp [h1, h2, h3, apply_ite]

lemma close_fileExists (compress : List Nat → Option (List Nat)) (s : HdfsState) :
    (close compress s).fileExists = s.fileExists := by
  unfold close
  by_cases h1 : s.fileSysOk = false <;> by_cases h2 : s.hfileOpen = false <;>
    by_cases h3 : s.LZOCompressionLevel ≠ 0 <;> simp [h1, h2, h3, apply_ite]

lemma close_hfileOpen (compress : List Nat → Option (List Nat)) (s : HdfsState)
    (hfs : s.fileSysOk = true) :
    (close compress s).hfileOpen = false := by
  unfold close
  by_cases h2 : s.hfileOpen = false <;> by_cases h3 : s.LZOCompressionLevel ≠ 0 <;>
    simp [hfs, h2, h3, apply_ite]

/-- A successful `write` on an existing, closed-handle name: reopen in
append mode (zeroing the compression level) and pass the bytes through
raw. -/
lemma write_raw_after (compress : List Nat → Option (List Nat))
    (baseFile : List Nat) (libVer : Nat) (d : List Nat) (t : HdfsState)
    (hfs : t.fileSysOk = true) (hno : t.hfileOpen = false) (hex : t.fileExists = true) :
    write compress true baseFile libVer d t =
      (true, { t with hfileOpen := true, openedAppend := true,
                      LZOCompressionLevel := 0, sink := t.sink ++ d }) := by
  simp [write, hno, openWrite_exists baseFile libVer t hfs hno hex]

/-- C8: on `close` of an open compression-enabled writer, the sink gains the
force-flushed frame buffer (when the flush succeeds) followed by exactly one
4-byte all-zero terminator frame, and the handle is released; with
compression disabled no terminator is written; and any later `write` to the
(now existing) name appends its bytes raw, so no further data frames reach
the stream. -/
theorem C8_terminator (compress : List Nat → Option (List Nat)) (s : HdfsState)
    (hfs : s.fileSysOk = true) (hopen : s.hfileOpen = true) :
    (s.LZOCompressionLevel ≠ 0 →
      (close compress s).sink
        = s.sink
          ++ (if (LZOCompress compress s.LZObacklogBuffer s.lzo_checksum [] true).success
                = true
              then (LZOCompress compress s.LZObacklogBuffer s.lzo_checksum [] true).ret
              else [])
          ++ [0, 0, 0, 0] ∧
      (close compress s).hfileOpen = false) ∧
    (s.LZOCompressionLevel = 0 → (close compress s).sink = s.sink) ∧
    (∀ d baseFile libVer, s.fileExists = true →
      (write compress true baseFile libVer d (close compress s)).2.sink
        = (close compress s).sink ++ d) := by
  refine ⟨fun hlvl => ⟨?_, close_hfileOpen compress s hfs⟩, fun hlvl => ?_,
    fun d baseFile libVer hex => ?_⟩
  · cases hsucc : (LZOCompress compress s.LZObacklogBuffer s.lzo_checksum [] true).success <;>
      simp [close, hfs, hopen, hlvl, hsucc, List.append_assoc]
  · simp [close, hfs, hopen, hlvl]
  · rw [write_raw_after compress baseFile libVer d (close compress s)
      (by rw [close_fileSysOk, hfs]) (close_hfileOpen compress s hfs)
      (by rw [close_fileExists, hex])]

/-- An open compression-enabled writer holding one backlogged byte. -/
def c8State : HdfsState := { openState with LZObacklogBuffer := [5] }

/-- C8 witness: closing a writer with one backlogged byte, then writing one
more byte through the reopened handle. -/
theorem C8_witness :
    ((close idCompress c8State).sink
      = c8State.sink
        ++ (if (LZOCompress idCompress c8State.LZObacklogBuffer c8State.lzo_checksum
                  [] true).success = true
            then (LZOCompress idCompress c8State.LZObacklogBuffer c8State.lzo_checksum
                  [] true).ret
            else [])
        ++ [0, 0, 0, 0] ∧
     (close idCompress c8State).hfileOpen = false) ∧
    (write idCompress true [] 0 [7] (close idCompress c8State)).2.sink
      = (close idCompress c8State).sink ++ [7] := by
  obtain ⟨h1, h2, h3⟩ := C8_terminator idCompress c8State rfl rfl
  exact ⟨h1 (by decide), h3 [7] [] 0 rfl⟩

/-- C9: a `write` with no open handle first attempts `openWrite`; when that
open fails, `write` returns `false` and the sink is untouched. -/
theorem C9_open_failure (compress : List Nat → Option (List Nat)) (openS : Bool)
    (baseFile : List Nat) (libVer : Nat) (d : List Nat) (s : HdfsState)
    (hno : s.hfileOpen = false)
    (hfail : (openWrite openS baseFile libVer s).1 = false) :
    write compress openS baseFile libVer d s
      = (false, (openWrite openS baseFile libVer s).2) ∧
    (openWrite openS baseFile libVer s).2.sink = s.sink := by
  constructor
  · simp [write, hno, hfail]
  · obtain ⟨fs, ho, fe, oa, lvl, bb, ck, sk⟩ := s
    dsimp only at hno; subst hno
    cases fs <;> cases openS <;> cases fe <;> by_cases hlvl : lvl = 0 <;>
      simp_all [openWrite]

/-- A writer whose HDFS connection failed at construction time. -/
def noFsState : HdfsState := { freshState with fileSysOk := false }

/-- C9 witness: a write on a writer with no filesystem connection fails and
sends nothing. -/
theorem C9_witness :
    write idCompress true [] 0 [1] noFsState
      = (false, (openWrite true [] 0 noFsState).2) ∧
    (openWrite true [] 0 noFsState).2.sink = noFsState.sink :=
  C9_open_failure idCompress true [] 0 [1] noFsState rfl rfl

/-- C10: when the forced flush in `close` fails, the flushed buffer is not
written (the backlogged bytes are dropped, the member backlog being replaced
by the flush result's), but the 4-byte zero terminator is still written and
the handle is still released. -/
theorem C10_close_flush_failure (compress : List Nat → Option (List Nat))
    (s : HdfsState) (hfs : s.fileSysOk = true) (hopen : s.hfileOpen = true)
    (hlvl : s.LZOCompressionLevel ≠ 0)
    (hfail : (LZOCompress compress s.LZObacklogBuffer s.lzo_checksum [] true).success
      = false) :
    close compress s = { s with
      hfileOpen := false,
      LZObacklogBuffer :=
        (LZOCompress compress s.LZObacklogBuffer s.lzo_checksum [] true).backlog,
      lzo_checksum :=
        (LZOCompress compress s.LZObacklogBuffer s.lzo_checksum [] true).chk,
      sink := s.sink ++ [0, 0, 0, 0] } := by
  simp [close, hfs, hopen, hlvl, hfail]

/-- C10 witness: closing a writer with one backlogged byte under an
always-failing compressor. -/
theorem C10_witness :
    close failCompress c8State = { c8State with
      hfileOpen := false,
      LZObacklogBuffer := (LZOCompress failCompress c8State.LZObacklogBuffer
        c8State.lzo_checksum [] true).backlog,
      lzo_checksum := (LZOCompress failCompress c8State.LZObacklogBuffer
        c8State.lzo_checksum [] true).chk,
      sink := c8State.sink ++ [0, 0, 0, 0] } :=
  C10_close_flush_failure failCompress c8State rfl rfl (by decide) (by decide)

/-- C1: round-trip integrity fails.  Writing the 3-byte sequence
`[97, 0, 98]` on a fresh compression-enabled writer and closing yields a
stream whose frames' concatenated uncompressed payloads are `[97]`, not the
original data: `LZOCompress` re-reads its input through
`string(inputData.data())`, truncating at the first NUL byte. -/
theorem C1_roundtrip_bug :
    (close idCompress (write idCompress true [102] 0x2060 [97, 0, 98] freshState).2).sink
      = (lzoHeader 1 0x2060 [102]).2 ++ [0, 0, 0, 1, 0, 0, 0, 1, 97, 0, 0, 0, 0] ∧
    framePayloads id 9
      ((close idCompress
          (write idCompress true [102] 0x2060 [97, 0, 98] freshState).2).sink.drop
        (lzoHeader 1 0x2060 [102]).2.length)
      = some [[97]] ∧
    ([[97]] : List (List Nat)).flatten ≠ [97, 0, 98] := by
  decide

/-- C2: the remainder is dropped, not absorbed.  For a framing input of
262145 bytes (one more than the block size), the loop emits a single
262144-byte block — the `i == blocks` remainder branch is unreachable for
`blocks > 0` since the loop runs `i < blocks` — so the joined blocks lose
the final byte instead of the last block growing to absorb it. -/
theorem C2_remainder_dropped :
    (List.replicate 262145 (0 : Nat)).length = 262145 ∧
    (262145 : Nat) / lzo_block_size = 1 ∧
    (lzoBlocksList (List.replicate 262145 (0 : Nat)) 1 (1 * lzo_block_size)).flatten
      = List.replicate 262144 (0 : Nat) ∧
    List.replicate 262144 (0 : Nat) ≠ List.replicate 262145 (0 : Nat) := by
  refine ⟨List.length_replicate 262145 0, by norm_num [lzo_block_size], ?_, ?_⟩
  · have h1 : lzoBlocksList (List.replicate 262145 (0 : Nat)) 1 (1 * lzo_block_size)
        = [(List.replicate 262145 (0 : Nat)).take lzo_block_size] := rfl
    rw [h1, show lzo_block_size = 262144 from rfl, List.take_replicate,
      show min 262144 262145 = 262144 from by decide,
      List.flatten_cons, List.flatten_nil, List.append_nil]
  · intro h
    have hl := congrArg List.length h
    rw [List.length_replicate, List.length_replicate] at hl
    omega

end HdfsFile
